import Mathlib

/-!
Verification development for the img2pdf repository (two Python source files:
`img2pdf_converter.py` and `simple_img2pdf.py`).

The program is a thin orchestration layer over the Pillow imaging library.
We embed the repository's own logic shallowly:

* decoded images become a record of color mode and pixel dimensions;
* Pillow calls made by the repository (`Image.open`, `Image.new`, `convert`,
  `paste`, `thumbnail`, `save`) become explicit operations, with filesystem
  and codec behavior supplied by an `Env` of oracles;
* Python exceptions become `Option` results: the repository catches every
  exception at each conversion call and turns it into a printed diagnostic
  plus a `None`/`False` return, which is exactly the `Option`/`Bool` shape
  of the embedded converters;
* printed lines become constructors of a `Msg` type.
-/

namespace Img2Pdf

/-- Pillow color modes distinguished by the repository's code.  The code only
ever compares the mode string against `'RGBA'`, `'LA'`, `'P'` and `'RGB'`;
`L` and `CMYK` stand in for the remaining ("any other") modes. -/
inductive Mode where
  | RGB
  | RGBA
  | LA
  | P
  | L
  | CMYK
deriving DecidableEq

/-- An in-memory decoded bitmap: a color mode plus pixel dimensions
(the Image Handle of the data model). -/
structure PILImage where
  mode : Mode
  width : Nat
  height : Nat
deriving DecidableEq

/-- Trace of the operations the color-normalization block performs on one
image, mirroring lines 32-40 of `img2pdf_converter.py` (the same block
appears at lines 78-85 and in `simple_img2pdf.py` lines 21-28):
which conversion ran, whether `background.paste` ran, whether the paste
received the image's alpha channel as `mask` (as opposed to `None`), and
the mode of the image actually pasted. -/
structure NormTrace where
  promotedToRGBA : Bool
  pasted : Bool
  maskUsed : Bool
  pastedMode : Option Mode
  convertedDirectToRGB : Bool
deriving DecidableEq

/-- Embedding of the color-normalization block:

    if image.mode in ('RGBA', 'LA', 'P'):
        background = Image.new('RGB', image.size, (255, 255, 255))
        if image.mode == 'P':
            image = image.convert('RGBA')
        background.paste(image, mask=image.split()[-1] if image.mode == 'RGBA' else None)
        image = background
    elif image.mode != 'RGB':
        image = image.convert('RGB')

`Image.new('RGB', image.size, …)` yields an RGB image of the same
dimensions; `paste` leaves the background's mode and size unchanged;
`convert` changes only the mode. -/
def normalizeImage (image : PILImage) : PILImage × NormTrace :=
  if image.mode = .RGBA ∨ image.mode = .LA ∨ image.mode = .P then
    let background : PILImage := ⟨Mode.RGB, image.width, image.height⟩
    let image2 := if image.mode = .P then { image with mode := Mode.RGBA } else image
    let maskGiven := decide (image2.mode = Mode.RGBA)
    (background,
     { promotedToRGBA := decide (image.mode = Mode.P)
       pasted := true
       maskUsed := maskGiven
       pastedMode := some image2.mode
       convertedDirectToRGB := false })
  else if image.mode ≠ .RGB then
    ({ image with mode := Mode.RGB },
     { promotedToRGBA := false, pasted := false, maskUsed := false
       pastedMode := none, convertedDirectToRGB := true })
  else
    (image,
     { promotedToRGBA := false, pasted := false, maskUsed := false
       pastedMode := none, convertedDirectToRGB := false })

/-!
### Page Sizer

The repository calls `image.thumbnail((2480, 3508), Image.Resampling.LANCZOS)`.
`thumbnail` is Pillow library code (an external collaborator); the next three
definitions model Pillow's `Image.thumbnail` dimension computation, with exact
rational arithmetic written over naturals in place of Pillow's floats:
`x / y >= aspect` becomes `w * y ≤ x * h`, `math.floor(y * aspect)` becomes
`y * w / h`, `math.ceil` its usual natural-number form, and the
`round_aspect` key comparisons are cross-multiplied. -/

/-- Pillow `round_aspect(y * aspect, key=lambda n: abs(aspect - n / y))`:
pick whichever of floor/ceil of `y * w / h` has its ratio `n / y` closest to
`w / h` (ties to floor, as Python's `min` keeps the first argument), then
clamp to at least 1. -/
def roundAspect1 (w h y : Nat) : Nat :=
  let flo := y * w / h
  let cei := (y * w + h - 1) / h
  max (if y * w - flo * h ≤ cei * h - y * w then flo else cei) 1

/-- Pillow `round_aspect(x / aspect, key=lambda n: 0 if n == 0 else abs(aspect - x / n))`:
pick whichever of floor/ceil of `x * h / w` has `x / n` closest to `w / h`
(`n = 0` compares as distance 0), then clamp to at least 1. -/
def roundAspect2 (w h x : Nat) : Nat :=
  let flo := x * h / w
  let cei := (x * h + w - 1) / w
  max (if flo = 0 then flo
       else if (x * h - flo * w) * cei ≤ (cei * w - x * h) * flo then flo else cei) 1

/-- Dimension computation of Pillow's `Image.thumbnail(size)`: no-op when the
image already fits the box, otherwise shrink to the box preserving the aspect
ratio, fixing whichever side of the box binds. -/
def pilThumbnail (w h x y : Nat) : Nat × Nat :=
  if w ≤ x ∧ h ≤ y then (w, h)
  else if w * y ≤ x * h then (roundAspect1 w h y, y)
  else (x, roundAspect2 w h x)

/-- The A4 box used by the repository: `a4_size = (2480, 3508)` (A4 at 300 DPI). -/
def thumbnailA4 (w h : Nat) : Nat × Nat := pilThumbnail w h 2480 3508

/-- `image.thumbnail(a4_size, Image.Resampling.LANCZOS)`: resize in place to
the A4 box; resampling leaves the color mode unchanged. -/
def applyThumbnailA4 (image : PILImage) : PILImage :=
  let d := thumbnailA4 image.width image.height
  ⟨image.mode, d.1, d.2⟩

/-!
### Paths

`pathlib.PurePath` name/suffix semantics, as used by
`Path(image_path).with_suffix('.pdf')` and `img_file.with_suffix('.pdf')`.
Paths are plain strings; the name is the part after the last `'/'`. -/

/-- Index of the last occurrence of `c` (Python `str.rfind`), if any. -/
def rfindIdx (c : Char) (cs : List Char) : Option Nat :=
  (cs.reverse.findIdx? (fun d => d = c)).map (fun j => cs.length - 1 - j)

/-- `PurePath.suffix` on a file name: the part from the last dot on, provided
that dot is neither leading nor trailing (`0 < i < len(name) - 1`). -/
def nameSuffix (cs : List Char) : List Char :=
  match rfindIdx '.' cs with
  | none => []
  | some i => if 0 < i ∧ i + 1 < cs.length then cs.drop i else []

/-- `PurePath.stem` on a file name: the name with `nameSuffix` removed. -/
def nameStem (cs : List Char) : List Char :=
  match rfindIdx '.' cs with
  | none => cs
  | some i => if 0 < i ∧ i + 1 < cs.length then cs.take i else cs

/-- `PurePath.with_suffix` on a file name: drop the old suffix (if any) and
append the new one. -/
def withSuffixName (cs suf : List Char) : List Char :=
  let old := nameSuffix cs
  if old.isEmpty then cs ++ suf
  else cs.take (cs.length - old.length) ++ suf

/-- The name component of a path: the characters after the last `'/'`. -/
def pathNameChars (cs : List Char) : List Char :=
  (cs.reverse.takeWhile (fun c => c ≠ '/')).reverse

/-- The directory part of a path, kept verbatim including its trailing `'/'`
(empty when the path has no `'/'`). -/
def parentChars (cs : List Char) : List Char :=
  cs.take (cs.length - (pathNameChars cs).length)

/-- The name component of a path, as a string. -/
def pathName (p : String) : String := ⟨pathNameChars p.data⟩

/-- The stem of a path's name component. -/
def pathStem (p : String) : String := ⟨nameStem (pathNameChars p.data)⟩

/-- The suffix (extension) of a path's name component, `PurePath.suffix`. -/
def pathSuffix (p : String) : String := ⟨nameSuffix (pathNameChars p.data)⟩

/-- The directory prefix of a path (verbatim, trailing slash included). -/
def parentPrefix (p : String) : String := ⟨parentChars p.data⟩

/-- `Path(p).with_suffix(suf)` as a string operation: the directory prefix is
kept and the suffix of the name component is replaced. -/
def withSuffixPath (p suf : String) : String :=
  ⟨parentChars p.data ++ withSuffixName (pathNameChars p.data) suf.data⟩

/-!
### Format Registry and directory scanning -/

/-- `get_supported_formats()`. -/
def get_supported_formats : List String :=
  [".jpg", ".jpeg", ".png", ".bmp", ".gif", ".tiff", ".webp"]

/-- Python `str.upper` on the registry's extension strings (character-wise,
which agrees with Python on the ASCII extensions involved). -/
def strUpper (s : String) : String := ⟨s.data.map Char.toUpper⟩

/-- Python `str.lower`, character-wise (used to state case-insensitive
comparison of extensions). -/
def strLower (s : String) : String := ⟨s.data.map Char.toLower⟩

/-- Whether `s` ends with `t`.  `Path.glob('*' + ext)` on POSIX matches a
directory entry exactly when the entry's name ends with `ext`
(`fnmatch` translation of `*ext`, matched case-sensitively). -/
def strEndsWith (s t : String) : Bool :=
  t.data.reverse.isPrefixOf s.data.reverse

/-- The directory-scan loop of `main` (and of interactive choice 4):

    for fmt in get_supported_formats():
        image_files.extend(input_path.glob(f'*STARfmt'))
        image_files.extend(input_path.glob(f'*STARfmt.upper()'))

applied to the list of entry names of the directory. -/
def scanDirectoryNames (files : List String) : List String :=
  get_supported_formats.foldl
    (fun acc fmt =>
      acc ++ files.filter (fun n => strEndsWith n fmt)
          ++ files.filter (fun n => strEndsWith n (strUpper fmt)))
    []

/-!
### Environment and converters -/

/-- Oracles for the external collaborators: the image codec (`Image.open`
returns an image or raises, `image.save` succeeds or raises) and the
filesystem (`is_dir`, directory entries in scan order, `sorted(glob.glob(…))`,
`exists`). -/
structure Env where
  decode : String → Option PILImage
  saveOk : String → Bool
  isDir : String → Bool
  dirFiles : String → List String
  globSorted : String → List String
  fileExists : String → Bool

/-- Lines the program prints, one constructor per `print` site relevant to
the converters and the CLI driver. -/
inductive Msg where
  | converted (src dst : String)
  | convertError (src : String)
  | multiPageCreated (out : String) (pages : Nat)
  | multiPageError
  | formatsListing
  | helpText
  | interactivePrompt
  | foundImages (n : Nat)
  | noImagesFound (dir : String)
  | notADirectory (p : String)
  | noFilesMatched (pat : String)
  | fileNotFound (p : String)
deriving DecidableEq

/-- Result of `convert_image_to_pdf`: the returned value (`None` on failure),
the file actually written by `image.save` together with the image written,
and the printed lines.  The Python function's `try`/`except` catches every
exception and returns `None`, so the embedding is total. -/
structure SingleResult where
  ret : Option String
  written : Option (String × PILImage)
  msgs : List Msg
deriving DecidableEq

/-- `convert_image_to_pdf(image_path, pdf_path, resize_to_a4, quality)`:
open, normalize, optionally A4-resize, default the output path to
`Path(image_path).with_suffix('.pdf')` when `pdf_path is None`, save.
`quality` is forwarded to `image.save` as a compression hint and does not
influence control flow. -/
def convert_image_to_pdf (env : Env) (image_path : String)
    (pdf_path : Option String) (resize_to_a4 : Bool) (quality : Nat) :
    SingleResult :=
  match env.decode image_path with
  | none => ⟨none, none, [.convertError image_path]⟩
  | some image0 =>
    let image1 := (normalizeImage image0).1
    let image2 := if resize_to_a4 then applyThumbnailA4 image1 else image1
    let outPath :=
      match pdf_path with
      | none => withSuffixPath image_path ".pdf"
      | some p => p
    if env.saveOk outPath then
      ⟨some outPath, some (outPath, image2), [.converted image_path outPath]⟩
    else
      ⟨none, none, [.convertError image_path]⟩

/-- Decode-normalize-resize of one path inside the combiner's loop. -/
def processOne (env : Env) (resize_to_a4 : Bool) (p : String) :
    Option PILImage :=
  (env.decode p).map (fun im =>
    let i1 := (normalizeImage im).1
    if resize_to_a4 then applyThumbnailA4 i1 else i1)

/-- The combiner's decoding loop: process every path in order, aborting on
the first failure (the Python loop raises out of the `for` and the `except`
takes over before any save). -/
def decodeAll (env : Env) (resize_to_a4 : Bool) :
    List String → Option (List PILImage)
  | [] => some []
  | p :: ps =>
    match processOne env resize_to_a4 p with
    | none => none
    | some im =>
      match decodeAll env resize_to_a4 ps with
      | none => none
      | some ims => some (im :: ims)

/-- Result of `convert_multiple_images_to_pdf`: the boolean return, the
output file written by the single `save(..., save_all=True, append_images=…)`
call with its ordered pages, and the printed lines. -/
structure MultiResult where
  success : Bool
  written : Option (String × List PILImage)
  msgs : List Msg
deriving DecidableEq

/-- `convert_multiple_images_to_pdf(image_paths, output_pdf, resize_to_a4,
quality)`: decode/normalize/resize every image in order inside one `try`;
any failure prints an error and returns `False` with nothing saved; with a
non-empty decoded list, `images[0].save(output_pdf, …, save_all=True,
append_images=images[1:])` writes all pages in order; an empty input list
skips the save and falls through to `return False` with no message. -/
def convert_multiple_images_to_pdf (env : Env) (image_paths : List String)
    (output_pdf : String) (resize_to_a4 : Bool) (quality : Nat) :
    MultiResult :=
  match decodeAll env resize_to_a4 image_paths with
  | none => ⟨false, none, [.multiPageError]⟩
  | some images =>
    if images.isEmpty then ⟨false, none, []⟩
    else if env.saveOk output_pdf then
      ⟨true, some (output_pdf, images), [.multiPageCreated output_pdf images.length]⟩
    else ⟨false, none, [.multiPageError]⟩

/-!
### CLI driver -/

/-- The full paths produced by the directory-scan loop: each matching entry
name of `dir`, joined onto `dir` (as `input_path.glob` yields them). -/
def dirScanFiles (env : Env) (dir : String) : List String :=
  (scanDirectoryNames (env.dirFiles dir)).map (fun n => dir ++ "/" ++ n)

/-- Parsed arguments, as `argparse` leaves them.  `input`, `output` and
`multi` are `None` or a string (possibly empty: `argparse` stores `-m ""`
verbatim); Python truthiness of such a value is `optTruthy` below. -/
structure Args where
  input : Option String
  output : Option String
  multi : Option String
  directory : Bool
  resizeA4 : Bool
  quality : Nat
  listFormats : Bool

/-- Python truthiness of an optional string: `None` and `""` are falsy. -/
def optTruthy : Option String → Bool
  | none => false
  | some s => decide (s ≠ "")

/-- Observable outcome of one `main()` run: printed lines in order, files
written (each with its ordered page list), and whether the interactive-mode
offer was reached. -/
structure MainResult where
  msgs : List Msg
  written : List (String × List PILImage)
  interactiveOffered : Bool
deriving DecidableEq

/-- `main()` after `parser.parse_args()`, dispatching in source order:

1. `args.list_formats` → print the registry, return;
2. `not args.input and not sys.argv[1:]` → print help, offer interactive
   mode, return (the menu itself is not modeled);
3. `args.directory and args.input` → scan the directory (or report that the
   input is not a directory / that no images were found); with a truthy
   `args.multi` combine into `args.multi if args.multi else
   input_path / 'combined.pdf'`, else convert each match individually to
   `img_file.with_suffix('.pdf')`;
4. `args.multi and args.input` → `sorted(glob.glob(args.input))`, combine
   (or report no matches);
5. `args.input` → single conversion if the file exists, else report;
6. otherwise fall through and return silently.

`argvTail` is `sys.argv[1:]`. -/
def mainModel (env : Env) (args : Args) (argvTail : List String) : MainResult :=
  if args.listFormats then
    ⟨[.formatsListing], [], false⟩
  else if !optTruthy args.input && argvTail.isEmpty then
    ⟨[.helpText, .interactivePrompt], [], true⟩
  else if args.directory && optTruthy args.input then
    let dir := args.input.getD ""
    if env.isDir dir then
      let imageFiles := dirScanFiles env dir
      if imageFiles.isEmpty then ⟨[.noImagesFound dir], [], false⟩
      else if optTruthy args.multi then
        let outputPdf :=
          if optTruthy args.multi then args.multi.getD ""
          else dir ++ "/combined.pdf"
        let r := convert_multiple_images_to_pdf env imageFiles outputPdf
                   args.resizeA4 args.quality
        ⟨Msg.foundImages imageFiles.length :: r.msgs,
         (match r.written with | some w => [w] | none => []), false⟩
      else
        let rs := imageFiles.map (fun f =>
          convert_image_to_pdf env f (some (withSuffixPath f ".pdf"))
            args.resizeA4 args.quality)
        ⟨Msg.foundImages imageFiles.length :: (rs.map SingleResult.msgs).flatten,
         rs.filterMap (fun r => r.written.map (fun w => (w.1, [w.2]))), false⟩
    else ⟨[.notADirectory dir], [], false⟩
  else if optTruthy args.multi && optTruthy args.input then
    let pat := args.input.getD ""
    let imageFiles := env.globSorted pat
    if imageFiles.isEmpty then ⟨[.noFilesMatched pat], [], false⟩
    else
      let r := convert_multiple_images_to_pdf env imageFiles
                 (args.multi.getD "") args.resizeA4 args.quality
      ⟨r.msgs, (match r.written with | some w => [w] | none => []), false⟩
  else if optTruthy args.input then
    let inp := args.input.getD ""
    if env.fileExists inp then
      let r := convert_image_to_pdf env inp args.output args.resizeA4 args.quality
      ⟨r.msgs,
       (match r.written with | some w => [(w.1, [w.2])] | none => []), false⟩
    else ⟨[.fileNotFound inp], [], false⟩
  else ⟨[], [], false⟩

/-!
## Helper lemmas -/

lemma normalizeImage_fst (img : PILImage) :
    (normalizeImage img).1 = ⟨Mode.RGB, img.width, img.height⟩ := by
  rcases img with ⟨m, w, h⟩
  cases m <;> rfl

lemma applyThumbnailA4_mode (img : PILImage) :
    (applyThumbnailA4 img).mode = img.mode := rfl

lemma processOne_mode {env : Env} {a4 : Bool} {p : String} {im : PILImage}
    (h : processOne env a4 p = some im) : im.mode = Mode.RGB := by
  unfold processOne at h
  cases hd : env.decode p with
  | none => rw [hd] at h; simp at h
  | some im0 =>
    rw [hd] at h
    simp only [Option.map_some', Option.some.injEq] at h
    subst h
    have hmode : (normalizeImage im0).1.mode = Mode.RGB := by
      rw [normalizeImage_fst]
    cases a4 <;> simp [applyThumbnailA4, hmode]

lemma processOne_isSome {env : Env} {a4 : Bool} {p : String}
    (h : (env.decode p).isSome) : ∃ im, processOne env a4 p = some im := by
  unfold processOne
  cases hd : env.decode p with
  | none => rw [hd] at h; simp at h
  | some im0 => exact ⟨_, rfl⟩

lemma decodeAll_of_forall_isSome (env : Env) (a4 : Bool) :
    ∀ ps : List String, (∀ p ∈ ps, (env.decode p).isSome) →
      ∃ ims, decodeAll env a4 ps = some ims ∧
        List.Forall₂ (fun p im => processOne env a4 p = some im) ps ims := by
  intro ps
  induction ps with
  | nil => exact fun _ => ⟨[], rfl, List.Forall₂.nil⟩
  | cons p ps ih =>
    intro h
    obtain ⟨im, him⟩ := @processOne_isSome env a4 p (h p (List.mem_cons_self p ps))
    obtain ⟨ims, hims, hfa⟩ := ih (fun q hq => h q (List.mem_cons_of_mem _ hq))
    exact ⟨im :: ims, by simp [decodeAll, him, hims], List.Forall₂.cons him hfa⟩

lemma decodeAll_isSome_decode (env : Env) (a4 : Bool) :
    ∀ (ps : List String) (ims : List PILImage),
      decodeAll env a4 ps = some ims → ∀ p ∈ ps, (env.decode p).isSome := by
  intro ps
  induction ps with
  | nil => simp
  | cons p ps ih =>
    intro ims h q hq
    unfold decodeAll at h
    cases h1 : processOne env a4 p with
    | none => rw [h1] at h; simp at h
    | some im =>
      rw [h1] at h
      cases h2 : decodeAll env a4 ps with
      | none => rw [h2] at h; simp at h
      | some ims' =>
        rcases List.mem_cons.mp hq with rfl | hq'
        · unfold processOne at h1
          cases hd : env.decode q with
          | none => rw [hd] at h1; simp at h1
          | some _ => simp
        · exact ih ims' h2 q hq'

lemma decodeAll_none_of_decode_none {env : Env} {a4 : Bool} {ps : List String}
    {p : String} (hp : p ∈ ps) (hd : env.decode p = none) :
    decodeAll env a4 ps = none := by
  cases h : decodeAll env a4 ps with
  | none => rfl
  | some ims =>
    have := decodeAll_isSome_decode env a4 ps ims h p hp
    rw [hd] at this
    simp at this

lemma decodeAll_modes_rgb (env : Env) (a4 : Bool) :
    ∀ (ps : List String) (ims : List PILImage),
      decodeAll env a4 ps = some ims → ∀ im ∈ ims, im.mode = Mode.RGB := by
  intro ps
  induction ps with
  | nil => intro ims h im him; simp [decodeAll] at h; subst h; simp at him
  | cons p ps ih =>
    intro ims h im him
    unfold decodeAll at h
    cases h1 : processOne env a4 p with
    | none => rw [h1] at h; simp at h
    | some im0 =>
      rw [h1] at h
      cases h2 : decodeAll env a4 ps with
      | none => rw [h2] at h; simp at h
      | some ims' =>
        rw [h2] at h
        simp only [Option.some.injEq] at h
        subst h
        rcases List.mem_cons.mp him with rfl | him'
        · exact processOne_mode h1
        · exact ih ims' h2 im him'

/-!
## C1: the Multi-Image Combiner is all-or-nothing -/

/-- C1: if decoding any image of the sequence fails, the combiner returns
failure and writes no output file; and the output file is written only when
every image of the sequence decoded successfully. -/
theorem multi_combiner_all_or_nothing (env : Env) (paths : List String)
    (out : String) (a4 : Bool) (q : Nat) :
    ((∃ p ∈ paths, env.decode p = none) →
      (convert_multiple_images_to_pdf env paths out a4 q).success = false ∧
      (convert_multiple_images_to_pdf env paths out a4 q).written = none) ∧
    (∀ o pages,
      (convert_multiple_images_to_pdf env paths out a4 q).written = some (o, pages) →
      ∀ p ∈ paths, (env.decode p).isSome) := by
  constructor
  · rintro ⟨p, hp, hd⟩
    have hda := @decodeAll_none_of_decode_none env a4 paths p hp hd
    simp [convert_multiple_images_to_pdf, hda]
  · intro o pages hw p hp
    unfold convert_multiple_images_to_pdf at hw
    cases hda : decodeAll env a4 paths with
    | none => rw [hda] at hw; simp at hw
    | some ims => exact decodeAll_isSome_decode env a4 paths ims hda p hp

/-- Witness for C1 at a concrete input: a single image whose decode fails. -/
theorem multi_combiner_all_or_nothing_witness :
    (convert_multiple_images_to_pdf
      ⟨fun _ => none, fun _ => true, fun _ => false, fun _ => [],
       fun _ => [], fun _ => false⟩
      ["a.jpg"] "out.pdf" false 95).success = false ∧
    (convert_multiple_images_to_pdf
      ⟨fun _ => none, fun _ => true, fun _ => false, fun _ => [],
       fun _ => [], fun _ => false⟩
      ["a.jpg"] "out.pdf" false 95).written = none :=
  (multi_combiner_all_or_nothing _ ["a.jpg"] "out.pdf" false 95).1
    ⟨"a.jpg", by simp, rfl⟩

/-!
## C7: N input images produce N pages in input order -/

/-- C7: for a non-empty sequence of images that all decode, the combiner
writes the output PDF whose page list corresponds one-to-one, in order, to
the input sequence (each page is the decoded, normalized, optionally resized
image of the corresponding path). -/
theorem multi_combiner_page_order (env : Env) (paths : List String)
    (out : String) (a4 : Bool) (q : Nat) (hne : paths ≠ [])
    (hall : ∀ p ∈ paths, (env.decode p).isSome)
    (hsave : env.saveOk out = true) :
    ∃ pages,
      (convert_multiple_images_to_pdf env paths out a4 q).success = true ∧
      (convert_multiple_images_to_pdf env paths out a4 q).written = some (out, pages) ∧
      pages.length = paths.length ∧
      List.Forall₂ (fun p im => processOne env a4 p = some im) paths pages := by
  obtain ⟨ims, hda, hfa⟩ := decodeAll_of_forall_isSome env a4 paths hall
  have hlen : paths.length = ims.length := hfa.length_eq
  have hne' : ims.isEmpty = false := by
    cases ims with
    | nil => cases paths with
      | nil => exact absurd rfl hne
      | cons a l => simp at hlen
    | cons a l => rfl
  refine ⟨ims, ?_, ?_, hlen.symm, hfa⟩ <;>
    simp [convert_multiple_images_to_pdf, hda, hne', hsave]

/-- Witness for C7: two concrete images, both decodable. -/
theorem multi_combiner_page_order_witness :
    ∃ pages,
      (convert_multiple_images_to_pdf
        ⟨fun _ => some ⟨Mode.RGB, 2, 3⟩, fun _ => true, fun _ => false,
         fun _ => [], fun _ => [], fun _ => false⟩
        ["a.png", "b.png"] "o.pdf" false 95).success = true ∧
      (convert_multiple_images_to_pdf
        ⟨fun _ => some ⟨Mode.RGB, 2, 3⟩, fun _ => true, fun _ => false,
         fun _ => [], fun _ => [], fun _ => false⟩
        ["a.png", "b.png"] "o.pdf" false 95).written = some ("o.pdf", pages) ∧
      pages.length = (["a.png", "b.png"] : List String).length ∧
      List.Forall₂
        (fun p im => processOne
          ⟨fun _ => some ⟨Mode.RGB, 2, 3⟩, fun _ => true, fun _ => false,
           fun _ => [], fun _ => [], fun _ => false⟩ false p = some im)
        ["a.png", "b.png"] pages :=
  multi_combiner_page_order _ ["a.png", "b.png"] "o.pdf" false 95
    (by simp) (by intro p _; rfl) rfl

/-!
## C5: normalization always yields RGB at unchanged dimensions, and every
encoded image went through it -/

/-- C5: the Color Normalizer's output is RGB with the source's dimensions,
for every input mode; and every image handed to `image.save` — by the
single-image converter or as any page of the multi-image combiner — has mode
RGB (it is the normalizer's output, possibly resized, and resizing keeps the
mode). -/
theorem normalizer_rgb_invariant :
    (∀ img : PILImage,
      (normalizeImage img).1.mode = Mode.RGB ∧
      (normalizeImage img).1.width = img.width ∧
      (normalizeImage img).1.height = img.height) ∧
    (∀ env p o a4 q pth im,
      (convert_image_to_pdf env p o a4 q).written = some (pth, im) →
      im.mode = Mode.RGB) ∧
    (∀ env ps out a4 q o pages,
      (convert_multiple_images_to_pdf env ps out a4 q).written = some (o, pages) →
      ∀ im ∈ pages, im.mode = Mode.RGB) := by
  refine ⟨fun img => ?_, fun env p o a4 q pth im hw => ?_,
          fun env ps out a4 q o pages hw im him => ?_⟩
  · rw [normalizeImage_fst]; exact ⟨rfl, rfl, rfl⟩
  · cases hd : env.decode p with
    | none => simp [convert_image_to_pdf, hd] at hw
    | some im0 =>
      have hmode : (normalizeImage im0).1.mode = Mode.RGB := by
        rw [normalizeImage_fst]
      simp only [convert_image_to_pdf, hd] at hw
      split at hw
      · simp only [Option.some.injEq, Prod.mk.injEq] at hw
        rw [← hw.2]
        cases a4 <;> simp [applyThumbnailA4, hmode]
      · simp at hw
  · unfold convert_multiple_images_to_pdf at hw
    cases hda : decodeAll env a4 ps with
    | none => rw [hda] at hw; simp at hw
    | some ims =>
      rw [hda] at hw
      by_cases he : ims.isEmpty = true
      · simp [he] at hw
      · simp only [Bool.not_eq_true] at he
        by_cases hs : env.saveOk out = true
        · simp only [he, hs, if_true, Bool.false_eq_true, if_false] at hw
          simp only [Option.some.injEq, Prod.mk.injEq] at hw
          exact decodeAll_modes_rgb env a4 ps ims hda im (hw.2 ▸ him)
        · simp only [Bool.not_eq_true] at hs
          simp [he, hs] at hw

/-- Witness for C5: the normalizer part at an LA image, the single-converter
part at a concrete successful conversion. -/
theorem normalizer_rgb_invariant_witness :
    ((normalizeImage ⟨Mode.LA, 5, 7⟩).1.mode = Mode.RGB ∧
     (normalizeImage ⟨Mode.LA, 5, 7⟩).1.width = 5 ∧
     (normalizeImage ⟨Mode.LA, 5, 7⟩).1.height = 7) ∧
    (⟨Mode.RGB, 5, 7⟩ : PILImage).mode = Mode.RGB :=
  ⟨normalizer_rgb_invariant.1 ⟨Mode.LA, 5, 7⟩,
   normalizer_rgb_invariant.2.1
     ⟨fun _ => some ⟨Mode.LA, 5, 7⟩, fun _ => true, fun _ => false,
      fun _ => [], fun _ => [], fun _ => false⟩
     "a.png" none false 95 "a.pdf" ⟨Mode.RGB, 5, 7⟩ (by decide)⟩

/-!
## C2: which modes get the alpha-mask compositing -/

/-- C2 counterexample: for an `LA`-mode image the normalizer pastes onto the
white canvas with `mask=None` (the mask is passed only when the pasted image
has mode `RGBA`), and the image is never materialized as RGBA first — the
claim's "the alpha mask is applied for every such mode, including LA" fails. -/
theorem la_mask_not_applied_counterexample :
    (normalizeImage ⟨Mode.LA, 10, 10⟩).2.maskUsed = false ∧
    (normalizeImage ⟨Mode.LA, 10, 10⟩).2.promotedToRGBA = false ∧
    (normalizeImage ⟨Mode.LA, 10, 10⟩).2.pastedMode = some Mode.LA := by
  decide

/-- C2 amended: for `RGBA` and `P` inputs the pasted image is a full RGBA
representation (`P` is promoted first) and the paste uses the image's alpha
channel as mask; for `LA` inputs the paste happens onto the same white
canvas but with no mask and with no RGBA promotion. -/
theorem normalizer_alpha_mask_amended (img : PILImage)
    (h : img.mode = Mode.RGBA ∨ img.mode = Mode.LA ∨ img.mode = Mode.P) :
    (normalizeImage img).2.pasted = true ∧
    ((img.mode = Mode.RGBA ∨ img.mode = Mode.P) →
      (normalizeImage img).2.maskUsed = true ∧
      (normalizeImage img).2.pastedMode = some Mode.RGBA) ∧
    (img.mode = Mode.LA →
      (normalizeImage img).2.maskUsed = false ∧
      (normalizeImage img).2.pastedMode = some Mode.LA) := by
  rcases img with ⟨m, w, hgt⟩
  rcases h with h | h | h <;> simp only at h <;> subst h <;>
    simp [normalizeImage]

/-- Witness for C2's amended statement at a concrete palette image. -/
theorem normalizer_alpha_mask_amended_witness :
    (normalizeImage ⟨Mode.P, 1, 1⟩).2.pasted = true ∧
    (((⟨Mode.P, 1, 1⟩ : PILImage).mode = Mode.RGBA ∨
      (⟨Mode.P, 1, 1⟩ : PILImage).mode = Mode.P) →
      (normalizeImage ⟨Mode.P, 1, 1⟩).2.maskUsed = true ∧
      (normalizeImage ⟨Mode.P, 1, 1⟩).2.pastedMode = some Mode.RGBA) ∧
    ((⟨Mode.P, 1, 1⟩ : PILImage).mode = Mode.LA →
      (normalizeImage ⟨Mode.P, 1, 1⟩).2.maskUsed = false ∧
      (normalizeImage ⟨Mode.P, 1, 1⟩).2.pastedMode = some Mode.LA) :=
  normalizer_alpha_mask_amended ⟨Mode.P, 1, 1⟩ (by decide)

/-!
## C3: which files the directory scan selects -/

lemma mem_foldl_scan (files : List String) (fmts : List String) :
    ∀ (acc : List String) (n : String),
      (n ∈ fmts.foldl
        (fun acc fmt =>
          acc ++ files.filter (fun x => strEndsWith x fmt)
              ++ files.filter (fun x => strEndsWith x (strUpper fmt)))
        acc) ↔
      (n ∈ acc ∨ ∃ fmt ∈ fmts, n ∈ files ∧
        (strEndsWith n fmt = true ∨ strEndsWith n (strUpper fmt) = true)) := by
  induction fmts with
  | nil => simp
  | cons f fs ih =>
    intro acc n
    rw [List.foldl_cons, ih]
    simp only [List.mem_append, List.mem_filter, List.mem_cons]
    constructor
    · rintro (((h | ⟨hn, he⟩) | ⟨hn, he⟩) | ⟨fmt, hf, hn, hor⟩)
      · exact Or.inl h
      · exact Or.inr ⟨f, Or.inl rfl, hn, Or.inl he⟩
      · exact Or.inr ⟨f, Or.inl rfl, hn, Or.inr he⟩
      · exact Or.inr ⟨fmt, Or.inr hf, hn, hor⟩
    · rintro (h | ⟨fmt, rfl | hf, hn, hor⟩)
      · exact Or.inl (Or.inl (Or.inl h))
      · rcases hor with he | he
        · exact Or.inl (Or.inl (Or.inr ⟨hn, he⟩))
        · exact Or.inl (Or.inr ⟨hn, he⟩)
      · exact Or.inr ⟨fmt, hf, hn, hor⟩

/-- C3 counterexample: `photo.Jpg` has registry extension `.jpg` when
compared case-insensitively, yet the directory scan does not select it —
only the all-lowercase and all-uppercase spellings are globbed. -/
theorem mixed_case_extension_counterexample :
    scanDirectoryNames ["photo.Jpg"] = [] ∧
    strLower (pathSuffix "photo.Jpg") ∈ get_supported_formats := by
  decide

/-- C3 amended: the scan selects exactly the directory entries whose name
ends with a registry extension written either fully lowercase (as listed in
the registry) or fully uppercase; any other casing is ignored. -/
theorem directory_scan_amended (files : List String) (n : String) :
    n ∈ scanDirectoryNames files ↔
      n ∈ files ∧ ∃ fmt ∈ get_supported_formats,
        (strEndsWith n fmt = true ∨ strEndsWith n (strUpper fmt) = true) := by
  unfold scanDirectoryNames
  rw [mem_foldl_scan]
  simp only [List.not_mem_nil, false_or]
  constructor
  · rintro ⟨fmt, hf, hn, hor⟩
    exact ⟨hn, fmt, hf, hor⟩
  · rintro ⟨hn, fmt, hf, hor⟩
    exact ⟨fmt, hf, hn, hor⟩

/-!
## C9: default output path replaces the extension with `.pdf` in place -/

lemma withSuffixName_eq_stem (cs suf : List Char) :
    withSuffixName cs suf = nameStem cs ++ suf := by
  unfold withSuffixName nameSuffix nameStem
  cases hr : rfindIdx '.' cs with
  | none => simp
  | some i =>
    by_cases hc : 0 < i ∧ i + 1 < cs.length
    · simp only [hc, and_self, if_true]
      have hne : (cs.drop i).isEmpty = false := by
        cases hcs : cs.drop i with
        | nil =>
          have := congrArg List.length hcs
          simp only [List.length_drop, List.length_nil] at this
          omega
        | cons a l => rfl
      simp only [hne, Bool.false_eq_true, if_false]
      rw [List.length_drop]
      have harith : cs.length - (cs.length - i) = i := by omega
      rw [harith]
    · simp only [hc, if_false]
      simp

/-- C9: when no explicit output path is given, the single-image converter
writes next to the input: the default output path is the input's directory
prefix unchanged, with the name's extension replaced by `.pdf`; and that
path is what a successful conversion returns. -/
theorem default_output_path (p : String) :
    withSuffixPath p ".pdf" = parentPrefix p ++ (pathStem p ++ ".pdf") ∧
    (∀ (env : Env) (a4 : Bool) (q : Nat) (img : PILImage),
      env.decode p = some img →
      env.saveOk (withSuffixPath p ".pdf") = true →
      (convert_image_to_pdf env p none a4 q).ret = some (withSuffixPath p ".pdf")) := by
  constructor
  · unfold withSuffixPath parentPrefix pathStem
    ext1
    simp only [String.data_append]
    rw [withSuffixName_eq_stem]
  · intro env a4 q img hd hs
    simp [convert_image_to_pdf, hd, hs]

/-- Witness for C9: `photo.JPG` becomes `photo.pdf`, and a concrete
successful conversion returns that path. -/
theorem default_output_path_witness :
    (withSuffixPath "photo.JPG" ".pdf" =
      parentPrefix "photo.JPG" ++ (pathStem "photo.JPG" ++ ".pdf")) ∧
    withSuffixPath "photo.JPG" ".pdf" = "photo.pdf" ∧
    (convert_image_to_pdf
      ⟨fun _ => some ⟨Mode.RGB, 1, 1⟩, fun _ => true, fun _ => false,
       fun _ => [], fun _ => [], fun _ => false⟩
      "photo.JPG" none false 95).ret = some (withSuffixPath "photo.JPG" ".pdf") :=
  ⟨(default_output_path "photo.JPG").1, by decide,
   (default_output_path "photo.JPG").2 _ false 95 ⟨Mode.RGB, 1, 1⟩ rfl rfl⟩

/-!
## C10: option flags with no positional input -/

/-- C10 counterexample: `-l` is an option-flag-only invocation
(`listFormats` set, no positional input, non-empty `sys.argv[1:]`), yet the
driver does match a dispatch branch and prints the format listing — the
claim's "returns without printing any message" does not hold for every
flag-only invocation. -/
theorem list_formats_flag_counterexample :
    mainModel
      ⟨fun _ => none, fun _ => false, fun _ => false, fun _ => [],
       fun _ => [], fun _ => false⟩
      ⟨none, none, none, false, false, 95, true⟩ ["-l"] =
      ⟨[Msg.formatsListing], [], false⟩ ∧
    ([Msg.formatsListing] : List Msg) ≠ [] := by
  constructor
  · rfl
  · simp

/-- C10 amended: an invocation with at least one option flag other than
`--list-formats` and no (truthy) positional input matches no dispatch
branch: `main` returns with no message, no file written and no interactive
offer. -/
theorem flags_without_input_silent (env : Env) (args : Args)
    (argvTail : List String) (hl : args.listFormats = false)
    (hi : optTruthy args.input = false) (ha : argvTail ≠ []) :
    mainModel env args argvTail = ⟨[], [], false⟩ := by
  have hargv : argvTail.isEmpty = false := by
    cases argvTail with
    | nil => exact absurd rfl ha
    | cons a l => rfl
  simp [mainModel, hl, hi, hargv]

/-- Witness for C10's amended statement: `-a4` alone. -/
theorem flags_without_input_silent_witness :
    mainModel
      ⟨fun _ => none, fun _ => false, fun _ => false, fun _ => [],
       fun _ => [], fun _ => false⟩
      ⟨none, none, none, false, true, 95, false⟩ ["-a4"] =
      ⟨[], [], false⟩ :=
  flags_without_input_silent _ _ _ rfl rfl (by simp)

/-!
## C8: per-file failure isolation -/

lemma convert_msgs_length (env : Env) (p : String) (o : Option String)
    (a4 : Bool) (q : Nat) :
    (convert_image_to_pdf env p o a4 q).msgs.length = 1 := by
  unfold convert_image_to_pdf
  cases env.decode p
  · rfl
  · dsimp only
    split <;> rfl

/-- C8: a failed single conversion returns `None` after printing exactly the
error line, for both failure kinds the claim names — decode failure
(`Image.open` raises) and encode failure (`image.save` on the resolved
output path raises); the embedded converter is total, mirroring the
`try`/`except` that converts every exception into a printed diagnostic
instead of re-raising.  And in directory individual-conversion mode the
driver's output is one conversion attempt per scanned file, each depending
only on its own file, so a failure on one file leaves every other file's
attempt in place. -/
theorem single_failure_isolation :
    (∀ (env : Env) (p : String) (o : Option String) (a4 : Bool) (q : Nat),
      env.decode p = none →
      (convert_image_to_pdf env p o a4 q).ret = none ∧
      (convert_image_to_pdf env p o a4 q).written = none ∧
      (convert_image_to_pdf env p o a4 q).msgs = [Msg.convertError p]) ∧
    (∀ (env : Env) (p : String) (o : Option String) (a4 : Bool) (q : Nat)
       (img : PILImage),
      env.decode p = some img →
      env.saveOk (match o with
                  | none => withSuffixPath p ".pdf"
                  | some outp => outp) = false →
      (convert_image_to_pdf env p o a4 q).ret = none ∧
      (convert_image_to_pdf env p o a4 q).written = none ∧
      (convert_image_to_pdf env p o a4 q).msgs = [Msg.convertError p]) ∧
    (∀ (env : Env) (args : Args) (argvTail : List String),
      args.listFormats = false →
      optTruthy args.input = true →
      args.directory = true →
      optTruthy args.multi = false →
      env.isDir (args.input.getD "") = true →
      dirScanFiles env (args.input.getD "") ≠ [] →
      (mainModel env args argvTail).msgs =
        Msg.foundImages (dirScanFiles env (args.input.getD "")).length ::
          ((dirScanFiles env (args.input.getD "")).map (fun f =>
            (convert_image_to_pdf env f (some (withSuffixPath f ".pdf"))
              args.resizeA4 args.quality).msgs)).flatten ∧
      (mainModel env args argvTail).msgs.length =
        (dirScanFiles env (args.input.getD "")).length + 1) := by
  refine ⟨?_, ?_, ?_⟩
  · intro env p o a4 q hd
    simp [convert_image_to_pdf, hd]
  · intro env p o a4 q img hdec hsv
    cases o with
    | none =>
      have hsv' : env.saveOk (withSuffixPath p ".pdf") = false := hsv
      simp [convert_image_to_pdf, hdec, hsv']
    | some outp =>
      have hsv' : env.saveOk outp = false := hsv
      simp [convert_image_to_pdf, hdec, hsv']
  · intro env args argvTail hl hi hd hm hdir hne
    have hempty : (dirScanFiles env (args.input.getD "")).isEmpty = false := by
      cases h : dirScanFiles env (args.input.getD "") with
      | nil => exact absurd h hne
      | cons a l => rfl
    have hmain : (mainModel env args argvTail).msgs =
        Msg.foundImages (dirScanFiles env (args.input.getD "")).length ::
          ((dirScanFiles env (args.input.getD "")).map (fun f =>
            (convert_image_to_pdf env f (some (withSuffixPath f ".pdf"))
              args.resizeA4 args.quality).msgs)).flatten := by
      simp [mainModel, hl, hi, hd, hm, hdir, hempty, List.map_map]
      rfl
    refine ⟨hmain, ?_⟩
    rw [hmain]
    simp only [List.length_cons]
    have : ∀ fs : List String,
        ((fs.map (fun f =>
          (convert_image_to_pdf env f (some (withSuffixPath f ".pdf"))
            args.resizeA4 args.quality).msgs)).flatten).length = fs.length := by
      intro fs
      induction fs with
      | nil => rfl
      | cons f fs ih =>
        simp only [List.map_cons, List.flatten_cons, List.length_append, ih,
          convert_msgs_length, List.length_cons]
        omega
    rw [this]

/-- Witness for C8: a concrete decode failure, a concrete save failure (the
image decodes but the save oracle refuses), and a directory with a failing
first file and a succeeding second file — both appear in the output, the
failure isolated to its file. -/
theorem single_failure_isolation_witness :
    ((convert_image_to_pdf
        ⟨fun _ => none, fun _ => true, fun _ => true,
         fun _ => ["bad.jpg", "good.jpg"], fun _ => [], fun _ => false⟩
        "/d/bad.jpg" none false 95).ret = none ∧
     (convert_image_to_pdf
        ⟨fun _ => none, fun _ => true, fun _ => true,
         fun _ => ["bad.jpg", "good.jpg"], fun _ => [], fun _ => false⟩
        "/d/bad.jpg" none false 95).written = none ∧
     (convert_image_to_pdf
        ⟨fun _ => none, fun _ => true, fun _ => true,
         fun _ => ["bad.jpg", "good.jpg"], fun _ => [], fun _ => false⟩
        "/d/bad.jpg" none false 95).msgs = [Msg.convertError "/d/bad.jpg"]) ∧
    ((convert_image_to_pdf
        ⟨fun _ => some ⟨Mode.RGB, 1, 1⟩, fun _ => false, fun _ => false,
         fun _ => [], fun _ => [], fun _ => false⟩
        "a.png" none false 95).ret = none ∧
     (convert_image_to_pdf
        ⟨fun _ => some ⟨Mode.RGB, 1, 1⟩, fun _ => false, fun _ => false,
         fun _ => [], fun _ => [], fun _ => false⟩
        "a.png" none false 95).written = none ∧
     (convert_image_to_pdf
        ⟨fun _ => some ⟨Mode.RGB, 1, 1⟩, fun _ => false, fun _ => false,
         fun _ => [], fun _ => [], fun _ => false⟩
        "a.png" none false 95).msgs = [Msg.convertError "a.png"]) ∧
    (mainModel
      ⟨fun f => if f = "/d/bad.jpg" then none else some ⟨Mode.RGB, 1, 1⟩,
       fun _ => true, fun _ => true, fun _ => ["bad.jpg", "good.jpg"],
       fun _ => [], fun _ => false⟩
      ⟨some "/d", none, none, true, false, 95, false⟩ ["-d", "/d"]).msgs =
      [Msg.foundImages 2, Msg.convertError "/d/bad.jpg",
       Msg.converted "/d/good.jpg" "/d/good.pdf"] :=
  ⟨(single_failure_isolation.1 _ "/d/bad.jpg" none false 95 rfl),
   (single_failure_isolation.2.1
      ⟨fun _ => some ⟨Mode.RGB, 1, 1⟩, fun _ => false, fun _ => false,
       fun _ => [], fun _ => [], fun _ => false⟩
      "a.png" none false 95 ⟨Mode.RGB, 1, 1⟩ rfl rfl),
   by
    have h := (single_failure_isolation.2.2
      ⟨fun f => if f = "/d/bad.jpg" then none else some ⟨Mode.RGB, 1, 1⟩,
       fun _ => true, fun _ => true, fun _ => ["bad.jpg", "good.jpg"],
       fun _ => [], fun _ => false⟩
      ⟨some "/d", none, none, true, false, 95, false⟩ ["-d", "/d"]
      rfl rfl rfl rfl rfl (by decide)).1
    rw [h]
    decide⟩

/-!
## C4: directory mode with `--multi` but an empty output name -/

/-- C4: `-m` requires a value, so "`--multi` given but no output name" can
only reach `main` as `args.multi = ""`.  An empty string is falsy, so the
guard `if args.multi:` sends the run to the individual-conversion branch:
the images are NOT combined, nothing named `combined.pdf` is written, and
the `input_path / 'combined.pdf'` default in
`output_pdf = args.multi if args.multi else input_path / 'combined.pdf'`
is unreachable.  Evaluated here at a concrete directory `/pics` holding one
decodable image `a.jpg`: the driver converts it individually to
`/pics/a.pdf` and never touches `/pics/combined.pdf`. -/
theorem directory_multi_empty_name_behavior :
    mainModel
      ⟨fun _ => some ⟨Mode.RGB, 10, 10⟩, fun _ => true,
       fun d => d = "/pics", fun _ => ["a.jpg"], fun _ => [], fun _ => true⟩
      ⟨some "/pics", none, some "", true, false, 95, false⟩
      ["-d", "-m", "", "/pics"] =
      ⟨[Msg.foundImages 1, Msg.converted "/pics/a.jpg" "/pics/a.pdf"],
       [("/pics/a.pdf", [⟨Mode.RGB, 10, 10⟩])], false⟩ ∧
    (∀ w ∈ (mainModel
      ⟨fun _ => some ⟨Mode.RGB, 10, 10⟩, fun _ => true,
       fun d => d = "/pics", fun _ => ["a.jpg"], fun _ => [], fun _ => true⟩
      ⟨some "/pics", none, some "", true, false, 95, false⟩
      ["-d", "-m", "", "/pics"]).written, w.1 ≠ "/pics/combined.pdf") := by
  constructor
  · decide
  · decide

/-!
## C6: A4 resizing bounds -/

lemma roundAspect1_bounds (w h y : Nat) (hh : 0 < h) :
    1 ≤ roundAspect1 w h y ∧
    roundAspect1 w h y * h ≤ y * w + h ∧
    y * w ≤ roundAspect1 w h y * h + h ∧
    ∀ k, 0 < k → y * w ≤ k * h → roundAspect1 w h y ≤ k := by
  simp only [roundAspect1]
  generalize y * w = A
  obtain ⟨B, hB1, hB2⟩ : ∃ B, A + h - 1 = B ∧ B + 1 = A + h :=
    ⟨A + h - 1, rfl, by omega⟩
  set F := A / h with hF
  set C := (A + h - 1) / h with hC
  have d1 : h * F + A % h = A := Nat.div_add_mod A h
  have m1 : A % h < h := Nat.mod_lt _ hh
  have d2 : h * C + (A + h - 1) % h = A + h - 1 := Nat.div_add_mod _ h
  have m2 : (A + h - 1) % h < h := Nat.mod_lt _ hh
  rw [hB1] at d2 m2
  have hcF : F * h = h * F := Nat.mul_comm F h
  have hcC : C * h = h * C := Nat.mul_comm C h
  have hF1 : h * F ≤ A := by omega
  have hF2 : A < h * F + h := by omega
  have hC1 : A ≤ h * C := by omega
  have hC2 : h * C < A + h := by omega
  set pick := if A - F * h ≤ C * h - A then F else C with hpick
  have hFC : pick = F ∨ pick = C := by
    by_cases hcond : A - F * h ≤ C * h - A
    · left; rw [hpick, if_pos hcond]
    · right; rw [hpick, if_neg hcond]
  have g2 : max pick 1 * h ≤ A + h := by
    rcases hFC with hp | hp <;> rw [hp]
    · rcases Nat.eq_zero_or_pos F with h0 | h1
      · rw [h0, show max 0 1 = 1 from rfl, Nat.one_mul]; omega
      · have hm : max F 1 = F := by omega
        rw [hm, hcF]; omega
    · rcases Nat.eq_zero_or_pos C with h0 | h1
      · rw [h0, show max 0 1 = 1 from rfl, Nat.one_mul]; omega
      · have hm : max C 1 = C := by omega
        rw [hm, hcC]; omega
  have g3 : A ≤ max pick 1 * h + h := by
    rcases hFC with hp | hp <;> rw [hp]
    · rcases Nat.eq_zero_or_pos F with h0 | h1
      · rw [h0] at hF2 ⊢
        rw [Nat.mul_zero] at hF2
        rw [show max 0 1 = 1 from rfl, Nat.one_mul]
        omega
      · have hm : max F 1 = F := by omega
        rw [hm, hcF]; omega
    · rcases Nat.eq_zero_or_pos C with h0 | h1
      · rw [h0] at hC1 ⊢
        rw [Nat.mul_zero] at hC1
        rw [show max 0 1 = 1 from rfl, Nat.one_mul]
        omega
      · have hm : max C 1 = C := by omega
        rw [hm, hcC]; omega
  have g4 : ∀ k, 0 < k → A ≤ k * h → max pick 1 ≤ k := by
    intro k hk hyk
    have hck : k * h = h * k := Nat.mul_comm k h
    have hFk : F ≤ k := Nat.le_of_mul_le_mul_left (by omega) hh
    have hCk : C ≤ k := by
      have hk1 : h * (k + 1) = h * k + h := by ring
      have hlt : h * C < h * (k + 1) := by omega
      have := Nat.lt_of_mul_lt_mul_left hlt
      omega
    rcases hFC with hp | hp <;> rw [hp] <;> omega
  exact ⟨le_max_right _ _, g2, g3, g4⟩

lemma roundAspect2_bounds (w h x : Nat) (hw : 0 < w) :
    1 ≤ roundAspect2 w h x ∧
    roundAspect2 w h x * w ≤ x * h + w ∧
    x * h ≤ roundAspect2 w h x * w + w ∧
    ∀ k, 0 < k → x * h ≤ k * w → roundAspect2 w h x ≤ k := by
  simp only [roundAspect2]
  generalize x * h = A
  obtain ⟨B, hB1, hB2⟩ : ∃ B, A + w - 1 = B ∧ B + 1 = A + w :=
    ⟨A + w - 1, rfl, by omega⟩
  set F := A / w with hF
  set C := (A + w - 1) / w with hC
  have d1 : w * F + A % w = A := Nat.div_add_mod A w
  have m1 : A % w < w := Nat.mod_lt _ hw
  have d2 : w * C + (A + w - 1) % w = A + w - 1 := Nat.div_add_mod _ w
  have m2 : (A + w - 1) % w < w := Nat.mod_lt _ hw
  rw [hB1] at d2 m2
  have hcF : F * w = w * F := Nat.mul_comm F w
  have hcC : C * w = w * C := Nat.mul_comm C w
  have hF1 : w * F ≤ A := by omega
  have hF2 : A < w * F + w := by omega
  have hC1 : A ≤ w * C := by omega
  have hC2 : w * C < A + w := by omega
  set pick := if F = 0 then F
    else if (A - F * w) * C ≤ (C * w - A) * F then F else C with hpick
  have hFC : pick = F ∨ pick = C := by
    by_cases h0 : F = 0
    · left; rw [hpick, if_pos h0]
    · rw [hpick, if_neg h0]
      by_cases hcond : (A - F * w) * C ≤ (C * w - A) * F
      · left; rw [if_pos hcond]
      · right; rw [if_neg hcond]
  have g2 : max pick 1 * w ≤ A + w := by
    rcases hFC with hp | hp <;> rw [hp]
    · rcases Nat.eq_zero_or_pos F with h0 | h1
      · rw [h0, show max 0 1 = 1 from rfl, Nat.one_mul]; omega
      · have hm : max F 1 = F := by omega
        rw [hm, hcF]; omega
    · rcases Nat.eq_zero_or_pos C with h0 | h1
      · rw [h0, show max 0 1 = 1 from rfl, Nat.one_mul]; omega
      · have hm : max C 1 = C := by omega
        rw [hm, hcC]; omega
  have g3 : A ≤ max pick 1 * w + w := by
    rcases hFC with hp | hp <;> rw [hp]
    · rcases Nat.eq_zero_or_pos F with h0 | h1
      · rw [h0] at hF2 ⊢
        rw [Nat.mul_zero] at hF2
        rw [show max 0 1 = 1 from rfl, Nat.one_mul]
        omega
      · have hm : max F 1 = F := by omega
        rw [hm, hcF]; omega
    · rcases Nat.eq_zero_or_pos C with h0 | h1
      · rw [h0] at hC1 ⊢
        rw [Nat.mul_zero] at hC1
        rw [show max 0 1 = 1 from rfl, Nat.one_mul]
        omega
      · have hm : max C 1 = C := by omega
        rw [hm, hcC]; omega
  have g4 : ∀ k, 0 < k → A ≤ k * w → max pick 1 ≤ k := by
    intro k hk hyk
    have hck : k * w = w * k := Nat.mul_comm k w
    have hFk : F ≤ k := Nat.le_of_mul_le_mul_left (by omega) hw
    have hCk : C ≤ k := by
      have hk1 : w * (k + 1) = w * k + w := by ring
      have hlt : w * C < w * (k + 1) := by omega
      have := Nat.lt_of_mul_lt_mul_left hlt
      omega
    rcases hFC with hp | hp <;> rw [hp] <;> omega
  exact ⟨le_max_right _ _, g2, g3, g4⟩

/-- C6: the A4 Page Sizer never produces a width above 2480 or a height
above 3508, never enlarges either dimension, keeps the aspect ratio up to
rounding (the cross products `w' * h` and `w * h'` differ by at most
`max w h`, i.e. the ratios differ by at most one pixel's worth), and leaves
an image already inside the box unchanged. -/
theorem a4_resize_bounds (w h : Nat) (hw : 0 < w) (hh : 0 < h) :
    (thumbnailA4 w h).1 ≤ 2480 ∧
    (thumbnailA4 w h).2 ≤ 3508 ∧
    (thumbnailA4 w h).1 ≤ w ∧
    (thumbnailA4 w h).2 ≤ h ∧
    (thumbnailA4 w h).1 * h ≤ w * (thumbnailA4 w h).2 + max w h ∧
    w * (thumbnailA4 w h).2 ≤ (thumbnailA4 w h).1 * h + max w h ∧
    (w ≤ 2480 → h ≤ 3508 → thumbnailA4 w h = (w, h)) := by
  unfold thumbnailA4 pilThumbnail
  by_cases hbox : w ≤ 2480 ∧ h ≤ 3508
  · rw [if_pos hbox]
    exact ⟨hbox.1, hbox.2, le_refl w, le_refl h,
      Nat.le_add_right _ _, Nat.le_add_right _ _, fun _ _ => rfl⟩
  · rw [if_neg hbox]
    by_cases hasp : w * 3508 ≤ 2480 * h
    · rw [if_pos hasp]
      dsimp only
      obtain ⟨b1, b2, b3, b4⟩ := roundAspect1_bounds w h 3508 hh
      have h3509 : 3509 ≤ h := by omega
      have hn2480 : roundAspect1 w h 3508 ≤ 2480 := b4 2480 (by omega) (by omega)
      have hnw : roundAspect1 w h 3508 ≤ w := by
        apply b4 w hw
        calc 3508 * w ≤ h * w := Nat.mul_le_mul_right w (by omega)
          _ = w * h := Nat.mul_comm h w
      have hmx : h ≤ max w h := le_max_right w h
      exact ⟨hn2480, le_refl 3508, hnw, by omega, by omega, by omega,
        fun _ h2 => absurd h2 (by omega)⟩
    · rw [if_neg hasp]
      dsimp only
      obtain ⟨b1, b2, b3, b4⟩ := roundAspect2_bounds w h 2480 hw
      have hw2481 : 2481 ≤ w := by omega
      have hn3508 : roundAspect2 w h 2480 ≤ 3508 := b4 3508 (by omega) (by omega)
      have hnh : roundAspect2 w h 2480 ≤ h := by
        apply b4 h hh
        calc 2480 * h ≤ w * h := Nat.mul_le_mul_right h (by omega)
          _ = h * w := Nat.mul_comm w h
      have hmx : w ≤ max w h := le_max_left w h
      have hc : roundAspect2 w h 2480 * w = w * roundAspect2 w h 2480 :=
        Nat.mul_comm _ w
      exact ⟨le_refl 2480, hn3508, by omega, hnh, by omega, by omega,
        fun h1 _ => absurd h1 (by omega)⟩

/-- Witness for C6 at a 5000x7000 image (and the computed result). -/
theorem a4_resize_bounds_witness :
    (0 : Nat) < 5000 ∧ (0 : Nat) < 7000 ∧
    (thumbnailA4 5000 7000).1 ≤ 2480 ∧
    (thumbnailA4 5000 7000).2 ≤ 3508 ∧
    (thumbnailA4 5000 7000).1 ≤ 5000 ∧
    (thumbnailA4 5000 7000).2 ≤ 7000 ∧
    thumbnailA4 5000 7000 = (2480, 3472) :=
  ⟨by norm_num, by norm_num,
   (a4_resize_bounds 5000 7000 (by norm_num) (by norm_num)).1,
   (a4_resize_bounds 5000 7000 (by norm_num) (by norm_num)).2.1,
   (a4_resize_bounds 5000 7000 (by norm_num) (by norm_num)).2.2.1,
   (a4_resize_bounds 5000 7000 (by norm_num) (by norm_num)).2.2.2.1,
   by decide⟩

end Img2Pdf
